import Mathlib

/-!
Verification of the Modern Portfolio Theory implementation (src/main.py).

Shallow embedding conventions:

* A return table with `n` time periods and `m` assets is `R : Fin n → Fin m → ℚ`
  (the pandas `DataFrame` of per-period log returns); a weight vector is
  `w : Fin m → ℚ`.  Encoding the shapes in the types captures the
  "matching lengths" precondition of the spec.
* Exact rational arithmetic stands in for IEEE doubles, except at the one
  place where the source can produce a non-finite float: the Sharpe-ratio
  division `mean_return / volatility`.  There the embedding uses an explicit
  `SharpeValue` type whose `posInf` / `negInf` / `nan` constructors model the
  IEEE artifacts `+inf` / `-inf` / `nan` produced by numpy when the
  denominator is exactly 0 (that division-by-zero behaviour of IEEE 754 is
  exact, not a rounding effect).
* The ambient numpy random source (`np.random.random`) is modelled as an
  explicit stream `s : ℕ → ℚ` of drawn magnitudes; trial `t` over `m` assets
  consumes positions `t*m, …, t*m + (m-1)` of the stream, exactly one call
  `np.random.random(m)` per loop iteration.
* `pandas.DataFrame.mean` is the per-column arithmetic mean and
  `pandas.DataFrame.cov` is the sample covariance with denominator `n - 1`
  (`ddof = 1`).  For `n ≤ 1` pandas yields `NaN` covariance entries.  The
  exact-arithmetic definitions (`column_mean`, `cov_matrix`, `portfolio_qf`,
  `volatility`) use the ℚ convention x / 0 = 0 and so collapse that NaN to
  0; wherever the NaN path is material the development therefore uses the
  `FloatVal` pipeline (`column_mean_f`, `cov_matrix_f`, `portfolio_qf_f`,
  `volatility_f`), which propagates the IEEE NaN of the degenerate-row path
  faithfully and is proved to agree with the exact definitions on tables
  with at least two rows.
-/

/-- `NUM_TRADING_DAYS = 252` (src/main.py line 12). -/
def NUM_TRADING_DAYS : ℕ := 252

/-- Per-asset mean period return: models `returns.mean()` for column `j`. -/
def column_mean {n m : ℕ} (R : Fin n → Fin m → ℚ) (j : Fin m) : ℚ :=
  (∑ i, R i j) / (n : ℚ)

/-- Sample covariance matrix: models `returns.cov()` (pandas, `ddof = 1`,
denominator `n - 1`). -/
def cov_matrix {n m : ℕ} (R : Fin n → Fin m → ℚ) (j k : Fin m) : ℚ :=
  (∑ i, (R i j - column_mean R j) * (R i k - column_mean R k)) / ((n : ℚ) - 1)

/-- `mean_return = np.sum(weights * returns.mean()) * NUM_TRADING_DAYS`
(src/main.py line 43). -/
def mean_return {n m : ℕ} (w : Fin m → ℚ) (R : Fin n → Fin m → ℚ) : ℚ :=
  (∑ j, w j * column_mean R j) * (NUM_TRADING_DAYS : ℚ)

/-- The argument of the square root on src/main.py line 44:
`np.dot(weights.T, np.dot(returns.cov() * NUM_TRADING_DAYS, weights))`,
i.e. the annualized covariance quadratic form.  The source applies `np.sqrt`
directly to this value, with no clamping. -/
def portfolio_qf {n m : ℕ} (w : Fin m → ℚ) (R : Fin n → Fin m → ℚ) : ℚ :=
  ∑ j, w j * (∑ k, (cov_matrix R j k * (NUM_TRADING_DAYS : ℚ)) * w k)

/-- `volatility = np.sqrt(...)` (src/main.py line 44). -/
noncomputable def volatility {n m : ℕ} (w : Fin m → ℚ) (R : Fin n → Fin m → ℚ) : ℝ :=
  Real.sqrt ((portfolio_qf w R : ℚ) : ℝ)

/-- A floating-point scalar result over the reals, used for the division on
src/main.py line 45 and for the reported volatility of `volatility_f`.  A
finite value is `val`; `posInf`, `negInf` and `nan` model the IEEE
artifacts `+inf`, `-inf`, `nan`. -/
inductive SharpeValue : Type where
  | val (x : ℝ)
  | posInf
  | negInf
  | nan

/-- IEEE-754 division of a (finite, exactly represented) numerator `a` by a
(finite, nonnegative in our uses) denominator `b`: when `b = 0` the result is
`+inf`, `-inf` or `nan` according to the sign of `a`; otherwise it is the
finite quotient.  This is the exact semantics of `a / b` in numpy at a zero
denominator. -/
noncomputable def ieee_div (a : ℚ) (b : ℝ) : SharpeValue :=
  if b = 0 then (if 0 < a then .posInf else if a < 0 then .negInf else .nan)
  else .val ((a : ℝ) / b)

/-- `portfolio_performance(weights, returns)` (src/main.py lines 42–46):
returns the triple `(mean_return, volatility, sharpe)` with
`sharpe = mean_return / volatility` performed in floating point. -/
noncomputable def portfolio_performance {n m : ℕ} (w : Fin m → ℚ)
    (R : Fin n → Fin m → ℚ) : ℚ × ℝ × SharpeValue :=
  (mean_return w R, volatility w R,
    ieee_div (mean_return w R) (volatility w R))

/-- The `m` magnitudes drawn for trial `t`: models
`np.random.random(len(returns.columns))` on src/main.py line 54, with the
global numpy random state modelled as the stream `s`. -/
def draw_magnitudes (s : ℕ → ℚ) (m t : ℕ) : Fin m → ℚ :=
  fun k => s (t * m + (k : ℕ))

/-- `weights /= np.sum(weights)` (src/main.py line 55). -/
def normalize_weights {m : ℕ} (d : Fin m → ℚ) : Fin m → ℚ :=
  fun k => d k / (∑ j, d j)

/-- `simulate_portfolios(returns, num_portfolios)` (src/main.py lines 49–62):
the loop appends each normalized weight vector to `weights_record` and writes
the corresponding `portfolio_performance` triple into column `i` of
`results`; the embedding returns the pair
(weights record, list of performance triples) in loop order. -/
noncomputable def simulate_portfolios {n m : ℕ} (s : ℕ → ℚ)
    (R : Fin n → Fin m → ℚ) : ℕ → List (Fin m → ℚ) × List (ℚ × ℝ × SharpeValue)
  | 0 => ([], [])
  | t + 1 =>
    let p := simulate_portfolios s R t
    let w := normalize_weights (draw_magnitudes s m t)
    (p.1 ++ [w], p.2 ++ [portfolio_performance w R])

/-- Spec §4.1: annualized return = (weighted sum of per-asset mean period
return) × periodsPerYear, with `periodsPerYear` an explicit parameter `P`. -/
def spec_annualized_return {n m : ℕ} (P : ℕ) (w : Fin m → ℚ)
    (R : Fin n → Fin m → ℚ) : ℚ :=
  (∑ j, w j * column_mean R j) * (P : ℚ)

/-- Spec §4.1: the quadratic form `weightsᵗ · (periodCovarianceMatrix ×
periodsPerYear) · weights`, with `periodsPerYear` an explicit parameter. -/
def spec_qf {n m : ℕ} (P : ℕ) (w : Fin m → ℚ) (R : Fin n → Fin m → ℚ) : ℚ :=
  ∑ j, w j * (∑ k, (cov_matrix R j k * (P : ℚ)) * w k)

/-- Spec §4.1 `evaluate(weights, returns, periodsPerYear)`: annualized
return, annualized volatility with the quadratic form clamped to 0 before
the square root, and the Sharpe division (which §3 allows to be ±∞/NaN at
zero volatility). -/
noncomputable def spec_evaluate {n m : ℕ} (P : ℕ) (w : Fin m → ℚ)
    (R : Fin n → Fin m → ℚ) : ℚ × ℝ × SharpeValue :=
  (spec_annualized_return P w R,
    Real.sqrt (max 0 ((spec_qf P w R : ℚ) : ℝ)),
    ieee_div (spec_annualized_return P w R)
      (Real.sqrt (max 0 ((spec_qf P w R : ℚ) : ℝ))))

/-- Concrete single-asset weight vector `[1]`. -/
def wOne : Fin 1 → ℚ := fun _ => 1

/-- Concrete degenerate return table: one asset, two periods, constant
log-return 1 (zero sample variance). -/
def Rconst : Fin 2 → Fin 1 → ℚ := fun _ _ => 1

/-- Concrete 2-period, 2-asset return table. -/
def Rex : Fin 2 → Fin 2 → ℚ := fun i j => ((i : ℕ) : ℚ) / 10 + ((j : ℕ) : ℚ) / 4

/-- A random stream that is identically zero: every value is in `[0, 1)`,
the range of `np.random.random`. -/
def zeroStream : ℕ → ℚ := fun _ => 0

/-- A constant random stream of value 1/2. -/
def halfStream : ℕ → ℚ := fun _ => 1 / 2

/-- A stream that agrees with `halfStream` on positions 0 and 1 only. -/
def otherStream : ℕ → ℚ := fun j => if j < 2 then 1 / 2 else 7

/-- A floating-point scalar over exact rationals: finite value, signed
infinity, or NaN.  Models the IEEE doubles flowing through the pandas
mean/cov pipeline — every finite value reachable there is rational. -/
inductive FloatVal : Type where
  | num (q : ℚ)
  | posInf
  | negInf
  | nan

/-- IEEE negation. -/
def fneg : FloatVal → FloatVal
  | .num q => .num (-q)
  | .posInf => .negInf
  | .negInf => .posInf
  | .nan => .nan

/-- IEEE addition: NaN propagates, opposite infinities give NaN. -/
def fadd : FloatVal → FloatVal → FloatVal
  | .num a, .num b => .num (a + b)
  | .num _, .posInf => .posInf
  | .posInf, .num _ => .posInf
  | .num _, .negInf => .negInf
  | .negInf, .num _ => .negInf
  | .posInf, .posInf => .posInf
  | .negInf, .negInf => .negInf
  | _, _ => .nan

/-- IEEE subtraction. -/
def fsub (a b : FloatVal) : FloatVal := fadd a (fneg b)

/-- IEEE multiplication: NaN propagates (0 × NaN = NaN), and 0 × ∞ = NaN. -/
def fmul : FloatVal → FloatVal → FloatVal
  | .num a, .num b => .num (a * b)
  | .num a, .posInf => if 0 < a then .posInf else if a < 0 then .negInf else .nan
  | .posInf, .num a => if 0 < a then .posInf else if a < 0 then .negInf else .nan
  | .num a, .negInf => if 0 < a then .negInf else if a < 0 then .posInf else .nan
  | .negInf, .num a => if 0 < a then .negInf else if a < 0 then .posInf else .nan
  | .posInf, .posInf => .posInf
  | .posInf, .negInf => .negInf
  | .negInf, .posInf => .negInf
  | .negInf, .negInf => .posInf
  | _, _ => .nan

/-- IEEE division (the sign of zero is not tracked, since the finite values
are exact rationals with a single zero): finite/0 is NaN for numerator 0
and a signed infinity otherwise, NaN propagates, finite/∞ is 0, ∞/∞ is
NaN, ∞/finite carries the sign. -/
def fdiv : FloatVal → FloatVal → FloatVal
  | .num a, .num b =>
    if b = 0 then (if 0 < a then .posInf else if a < 0 then .negInf else .nan)
    else .num (a / b)
  | .num _, .posInf => .num 0
  | .num _, .negInf => .num 0
  | .posInf, .num a => if a < 0 then .negInf else .posInf
  | .negInf, .num a => if a < 0 then .posInf else .negInf
  | _, _ => .nan

/-- Sum of `c` floating-point terms, first to last. -/
def fsum : {c : ℕ} → (Fin c → FloatVal) → FloatVal
  | 0, _ => .num 0
  | _ + 1, f => fadd (f 0) (fsum fun i => f i.succ)

/-- `returns.mean()` for column `j` in floating point: the column sum over
the row count; for an empty table this is the NaN division 0/0. -/
def column_mean_f {n m : ℕ} (R : Fin n → Fin m → ℚ) (j : Fin m) : FloatVal :=
  fdiv (fsum fun i => .num (R i j)) (.num (n : ℚ))

/-- `returns.cov()` entry `(j, k)` in floating point: pandas normalizes the
sum of deviation products by `count - ddof = n - 1`.  For `n = 1` the
deviations are exactly 0 and the entry is the NaN division 0/0; for `n = 0`
the means are already NaN and the NaN propagates. -/
def cov_matrix_f {n m : ℕ} (R : Fin n → Fin m → ℚ) (j k : Fin m) : FloatVal :=
  fdiv (fsum fun i =>
      fmul (fsub (.num (R i j)) (column_mean_f R j))
        (fsub (.num (R i k)) (column_mean_f R k)))
    (.num ((n : ℚ) - 1))

/-- The square-root argument of src/main.py line 44 in floating point:
`np.dot(weights.T, np.dot(returns.cov() * NUM_TRADING_DAYS, weights))` over
the floating-point covariance entries, so that a NaN covariance (degenerate
row count) propagates as it does in numpy. -/
def portfolio_qf_f {n m : ℕ} (w : Fin m → ℚ) (R : Fin n → Fin m → ℚ) : FloatVal :=
  fsum fun j => fmul (.num (w j))
    (fsum fun k =>
      fmul (fmul (cov_matrix_f R j k) (.num (NUM_TRADING_DAYS : ℚ))) (.num (w k)))

/-- `np.sqrt` applied to the floating-point quadratic form: the annualized
volatility the program reports, including the degenerate-table path.
`np.sqrt` of NaN or of a negative argument is NaN, of a nonnegative finite
argument the real square root, of +∞ it is +∞. -/
noncomputable def volatility_f {n m : ℕ} (w : Fin m → ℚ)
    (R : Fin n → Fin m → ℚ) : SharpeValue :=
  match portfolio_qf_f w R with
  | .num q => if q < 0 then .nan else .val ((Real.sqrt ((q : ℚ) : ℝ)))
  | .posInf => .posInf
  | .negInf => .nan
  | .nan => .nan

/-- Concrete one-row, one-asset return table: the degenerate 1-row
ReturnTable scenario of spec §8, on which pandas cov is NaN. -/
def Rone : Fin 1 → Fin 1 → ℚ := fun _ _ => 1

theorem sum_mul_expand {n m : ℕ} (w : Fin m → ℚ) (f : Fin n → Fin m → ℚ) :
    ∑ j, ∑ k, (w j * w k) * (∑ i, f i j * f i k)
      = ∑ i, (∑ j, w j * f i j) ^ 2 := by
  calc ∑ j, ∑ k, (w j * w k) * (∑ i, f i j * f i k)
      = ∑ j, ∑ k, ∑ i, (w j * f i j) * (w k * f i k) := by
        refine Finset.sum_congr rfl fun j _ => Finset.sum_congr rfl fun k _ => ?_
        rw [Finset.mul_sum]
        exact Finset.sum_congr rfl fun i _ => by ring
    _ = ∑ j, ∑ i, ∑ k, (w j * f i j) * (w k * f i k) := by
        exact Finset.sum_congr rfl fun j _ => Finset.sum_comm
    _ = ∑ i, ∑ j, ∑ k, (w j * f i j) * (w k * f i k) := Finset.sum_comm
    _ = ∑ i, (∑ j, w j * f i j) * (∑ k, w k * f i k) := by
        refine Finset.sum_congr rfl fun i _ => ?_
        rw [Finset.sum_mul_sum]
    _ = ∑ i, (∑ j, w j * f i j) ^ 2 := by
        refine Finset.sum_congr rfl fun i _ => ?_
        rw [sq]

theorem portfolio_qf_eq {n m : ℕ} (w : Fin m → ℚ) (R : Fin n → Fin m → ℚ) :
    portfolio_qf w R
      = (NUM_TRADING_DAYS : ℚ)
          * (∑ i, (∑ j, w j * (R i j - column_mean R j)) ^ 2) / ((n : ℚ) - 1) := by
  unfold portfolio_qf cov_matrix
  calc ∑ j, w j * (∑ k,
        ((∑ i, (R i j - column_mean R j) * (R i k - column_mean R k)) / ((n : ℚ) - 1)
          * (NUM_TRADING_DAYS : ℚ)) * w k)
      = ∑ j, ∑ k, ((NUM_TRADING_DAYS : ℚ) * ((w j * w k)
          * (∑ i, (R i j - column_mean R j) * (R i k - column_mean R k))))
          / ((n : ℚ) - 1) := by
        refine Finset.sum_congr rfl fun j _ => ?_
        rw [Finset.mul_sum]
        exact Finset.sum_congr rfl fun k _ => by ring
    _ = ((NUM_TRADING_DAYS : ℚ) * (∑ j, ∑ k, (w j * w k)
          * (∑ i, (R i j - column_mean R j) * (R i k - column_mean R k))))
          / ((n : ℚ) - 1) := by
        simp only [← Finset.sum_div, ← Finset.mul_sum]
    _ = (NUM_TRADING_DAYS : ℚ)
          * (∑ i, (∑ j, w j * (R i j - column_mean R j)) ^ 2) / ((n : ℚ) - 1) := by
        rw [sum_mul_expand w (fun i j => R i j - column_mean R j)]

theorem portfolio_qf_nonneg {n m : ℕ} (w : Fin m → ℚ) (R : Fin n → Fin m → ℚ) :
    0 ≤ portfolio_qf w R := by
  rw [portfolio_qf_eq]
  rcases n with - | - | n
  · simp
  · have h : ∀ i : Fin 1, (∑ j, w j * (R i j - column_mean R j)) = 0 := by
      intro i
      have hi : i = 0 := Subsingleton.elim _ _
      subst hi
      have hc : ∀ j : Fin m, column_mean R j = R 0 j := by
        intro j
        unfold column_mean
        simp
      refine Finset.sum_eq_zero fun j _ => ?_
      rw [hc j]
      ring
    simp [h]
  · have hD : (0 : ℚ) < ((n + 2 : ℕ) : ℚ) - 1 := by
      push_cast
      linarith
    have hS : 0 ≤ ∑ i : Fin (n + 2), (∑ j, w j * (R i j - column_mean R j)) ^ 2 :=
      Finset.sum_nonneg fun i _ => sq_nonneg _
    exact div_nonneg (mul_nonneg (by norm_num) hS) hD.le

theorem fadd_nan_left (x : FloatVal) : fadd FloatVal.nan x = FloatVal.nan := by
  cases x <;> rfl

theorem fadd_nan_right (x : FloatVal) : fadd x FloatVal.nan = FloatVal.nan := by
  cases x <;> rfl

theorem fsum_num {c : ℕ} : ∀ (f : Fin c → FloatVal) (g : Fin c → ℚ),
    (∀ k, f k = FloatVal.num (g k)) → fsum f = FloatVal.num (∑ k, g k) := by
  induction c with
  | zero =>
    intro f g h
    simp [fsum]
  | succ c ih =>
    intro f g h
    show fadd (f 0) (fsum fun i => f i.succ) = FloatVal.num (∑ k, g k)
    rw [h 0, ih (fun i => f i.succ) (fun i => g i.succ) (fun i => h i.succ),
      Fin.sum_univ_succ]
    rfl

theorem fsum_nan {c : ℕ} : ∀ (f : Fin c → FloatVal),
    (∃ k, f k = FloatVal.nan) → fsum f = FloatVal.nan := by
  induction c with
  | zero =>
    intro f hf
    obtain ⟨k, _⟩ := hf
    exact k.elim0
  | succ c ih =>
    intro f hf
    obtain ⟨k, hk⟩ := hf
    show fadd (f 0) (fsum fun i => f i.succ) = FloatVal.nan
    rcases Fin.eq_zero_or_eq_succ k with h0 | ⟨i, hi⟩
    · rw [h0] at hk
      rw [hk, fadd_nan_left]
    · rw [hi] at hk
      rw [ih (fun i => f i.succ) ⟨i, hk⟩, fadd_nan_right]

theorem fsub_num (a b : ℚ) :
    fsub (FloatVal.num a) (FloatVal.num b) = FloatVal.num (a - b) := by
  show FloatVal.num (a + -b) = FloatVal.num (a - b)
  rw [← sub_eq_add_neg]

theorem column_mean_f_num {n m : ℕ} (R : Fin n → Fin m → ℚ) (j : Fin m)
    (hn : 1 ≤ n) : column_mean_f R j = FloatVal.num (column_mean R j) := by
  have hz : ((n : ℚ)) ≠ 0 := Nat.cast_ne_zero.mpr (by omega)
  unfold column_mean_f column_mean
  rw [fsum_num (fun i => FloatVal.num (R i j)) (fun i => R i j) (fun i => rfl)]
  simp only [fdiv]
  rw [if_neg hz]

theorem cov_matrix_f_num {n m : ℕ} (R : Fin n → Fin m → ℚ) (j k : Fin m)
    (hn : 2 ≤ n) : cov_matrix_f R j k = FloatVal.num (cov_matrix R j k) := by
  have h1 : 1 ≤ n := by omega
  have hz : ((n : ℚ) - 1) ≠ 0 := by
    have h2 : (2 : ℚ) ≤ (n : ℚ) := by exact_mod_cast hn
    have hne : (n : ℚ) ≠ 1 := by
      intro h1q
      rw [h1q] at h2
      norm_num at h2
    exact sub_ne_zero.mpr hne
  have hterm : ∀ i : Fin n,
      fmul (fsub (FloatVal.num (R i j)) (column_mean_f R j))
        (fsub (FloatVal.num (R i k)) (column_mean_f R k))
      = FloatVal.num ((R i j - column_mean R j) * (R i k - column_mean R k)) := by
    intro i
    rw [column_mean_f_num R j h1, column_mean_f_num R k h1, fsub_num, fsub_num]
    rfl
  unfold cov_matrix_f cov_matrix
  rw [fsum_num _ _ hterm]
  simp only [fdiv]
  rw [if_neg hz]

theorem portfolio_qf_f_num {n m : ℕ} (w : Fin m → ℚ) (R : Fin n → Fin m → ℚ)
    (hn : 2 ≤ n) : portfolio_qf_f w R = FloatVal.num (portfolio_qf w R) := by
  have hinner : ∀ j : Fin m,
      fmul (FloatVal.num (w j))
        (fsum fun k =>
          fmul (fmul (cov_matrix_f R j k) (FloatVal.num (NUM_TRADING_DAYS : ℚ)))
            (FloatVal.num (w k)))
      = FloatVal.num (w j * (∑ k, (cov_matrix R j k * (NUM_TRADING_DAYS : ℚ)) * w k)) := by
    intro j
    have hk : ∀ k : Fin m,
        fmul (fmul (cov_matrix_f R j k) (FloatVal.num (NUM_TRADING_DAYS : ℚ)))
          (FloatVal.num (w k))
        = FloatVal.num ((cov_matrix R j k * (NUM_TRADING_DAYS : ℚ)) * w k) := by
      intro k
      rw [cov_matrix_f_num R j k hn]
      rfl
    rw [fsum_num _ _ hk]
    rfl
  unfold portfolio_qf_f portfolio_qf
  rw [fsum_num _ _ hinner]

theorem volatility_f_finite {n m : ℕ} (w : Fin m → ℚ) (R : Fin n → Fin m → ℚ)
    (hn : 2 ≤ n) : volatility_f w R = SharpeValue.val (volatility w R) := by
  unfold volatility_f
  rw [portfolio_qf_f_num w R hn]
  show (if portfolio_qf w R < 0 then SharpeValue.nan
      else SharpeValue.val (Real.sqrt ((portfolio_qf w R : ℚ) : ℝ)))
      = SharpeValue.val (volatility w R)
  rw [if_neg (not_lt.mpr (portfolio_qf_nonneg w R))]
  rfl

/-- C2 counterexample: the single-row return table `Rone` is a valid input
(spec §8 names the degenerate 1-row ReturnTable scenario) and `wOne` sums
to 1, yet the program reports NaN volatility there: pandas normalizes the
covariance by `count - ddof = 0`, the resulting 0/0 NaN propagates through
the quadratic form and through `np.sqrt`, and NaN is not a nonnegative
real — so the volatility ≥ 0 claim fails as universally stated, and no
clamping of the square-root argument happens (or would help). -/
theorem volatility_nan_one_row :
    (∑ j, wOne j = 1) ∧ volatility_f wOne Rone = SharpeValue.nan := by
  refine ⟨by simp [wOne], ?_⟩
  have h1 : (1 : ℕ) ≤ 1 := le_refl 1
  have hterm : ∀ i : Fin 1,
      fmul (fsub (FloatVal.num (Rone i 0)) (column_mean_f Rone 0))
        (fsub (FloatVal.num (Rone i 0)) (column_mean_f Rone 0))
      = FloatVal.num ((Rone i 0 - column_mean Rone 0) * (Rone i 0 - column_mean Rone 0)) := by
    intro i
    rw [column_mean_f_num Rone 0 h1, fsub_num]
    rfl
  have hcov : cov_matrix_f Rone 0 0 = FloatVal.nan := by
    unfold cov_matrix_f
    rw [fsum_num _ _ hterm]
    have hz : (∑ i : Fin 1,
        (Rone i 0 - column_mean Rone 0) * (Rone i 0 - column_mean Rone 0)) = 0 := by
      norm_num [Rone, column_mean, Fin.sum_univ_one]
    rw [hz]
    simp only [fdiv]
    rw [if_pos (by norm_num : ((1 : ℕ) : ℚ) - 1 = 0)]
    norm_num
  have hinner : fsum (fun k : Fin 1 =>
      fmul (fmul (cov_matrix_f Rone 0 k) (FloatVal.num (NUM_TRADING_DAYS : ℚ)))
        (FloatVal.num (wOne k))) = FloatVal.nan := by
    refine fsum_nan _ ⟨0, ?_⟩
    show fmul (fmul (cov_matrix_f Rone 0 0) (FloatVal.num (NUM_TRADING_DAYS : ℚ)))
        (FloatVal.num (wOne 0)) = FloatVal.nan
    rw [hcov]
    rfl
  have hqf : portfolio_qf_f wOne Rone = FloatVal.nan := by
    unfold portfolio_qf_f
    refine fsum_nan _ ⟨0, ?_⟩
    show fmul (FloatVal.num (wOne 0))
        (fsum fun k : Fin 1 =>
          fmul (fmul (cov_matrix_f Rone 0 k) (FloatVal.num (NUM_TRADING_DAYS : ℚ)))
            (FloatVal.num (wOne k))) = FloatVal.nan
    rw [hinner]
    rfl
  unfold volatility_f
  rw [hqf]

/-- C2 (amended): over every return table with at least two rows — so that
the pandas sample covariance is finite rather than the NaN produced from a
single observation — the reported annualized volatility is the finite value
sqrt of the quadratic form: that square-root argument is provably never
negative, clamping it to 0 before the square root leaves the volatility
unchanged, and the reported volatility is ≥ 0.  The two-row hypothesis is
exactly what the counterexample above forces. -/
theorem volatility_nonneg_two_rows {n m : ℕ} (w : Fin m → ℚ)
    (R : Fin n → Fin m → ℚ) (hn : 2 ≤ n) (hw : ∑ j, w j = 1) :
    volatility_f w R = SharpeValue.val (volatility w R) ∧
    0 ≤ portfolio_qf w R ∧
    Real.sqrt (max 0 ((portfolio_qf w R : ℚ) : ℝ)) = volatility w R ∧
    0 ≤ volatility w R := by
  refine ⟨volatility_f_finite w R hn, portfolio_qf_nonneg w R, ?_, Real.sqrt_nonneg _⟩
  unfold volatility
  have h0 : (0 : ℝ) ≤ ((portfolio_qf w R : ℚ) : ℝ) := by
    exact_mod_cast portfolio_qf_nonneg w R
  rw [max_eq_right h0]

/-- Witness for the amended C2 theorem at the two-row concrete input `wOne`,
`Rconst`. -/
theorem volatility_nonneg_two_rows_witness :
    (2 ≤ 2) ∧ (∑ j, wOne j = 1) ∧
    (volatility_f wOne Rconst = SharpeValue.val (volatility wOne Rconst) ∧
     0 ≤ portfolio_qf wOne Rconst ∧
     Real.sqrt (max 0 ((portfolio_qf wOne Rconst : ℚ) : ℝ)) = volatility wOne Rconst ∧
     0 ≤ volatility wOne Rconst) :=
  ⟨by decide, by simp [wOne],
   volatility_nonneg_two_rows wOne Rconst (by decide) (by simp [wOne])⟩

/-- C6: the annualized return computed on src/main.py line 43 equals the
spec formula (weighted sum of per-asset mean period returns times
`periodsPerYear`) at `periodsPerYear = 252`, and for a single-asset universe
with weight `[1]` it equals `mean(returns) * 252` exactly. -/
theorem mean_return_is_spec {n m : ℕ} (w : Fin m → ℚ) (R : Fin n → Fin m → ℚ) :
    mean_return w R = spec_annualized_return 252 w R ∧
    ∀ R1 : Fin n → Fin 1 → ℚ,
      mean_return (fun _ => 1) R1 = column_mean R1 0 * 252 := by
  constructor
  · rfl
  · intro R1
    unfold mean_return NUM_TRADING_DAYS
    rw [Fin.sum_univ_one, one_mul]
    norm_num

/-- C10: `portfolio_performance` has no `periodsPerYear` parameter and
annualizes with the fixed constant `NUM_TRADING_DAYS = 252`: its result
always equals the spec-side `evaluate(weights, returns, 252)` (the clamp in
the spec volatility is a no-op because the quadratic form is provably
nonnegative). -/
theorem performance_eq_spec_evaluate {n m : ℕ} (w : Fin m → ℚ)
    (R : Fin n → Fin m → ℚ) :
    portfolio_performance w R = spec_evaluate 252 w R := by
  have hq : spec_qf 252 w R = portfolio_qf w R := rfl
  have hs : Real.sqrt (max 0 ((spec_qf 252 w R : ℚ) : ℝ)) = volatility w R := by
    rw [hq]
    unfold volatility
    have h0 : (0 : ℝ) ≤ ((portfolio_qf w R : ℚ) : ℝ) := by
      exact_mod_cast portfolio_qf_nonneg w R
    rw [max_eq_right h0]
  have hm : spec_annualized_return 252 w R = mean_return w R := rfl
  unfold portfolio_performance spec_evaluate
  rw [hm, hs]

/-- C1 (code bug): at the degenerate input `weights = [1]`,
`returns = Rconst` (two periods of constant log-return, hence zero sample
variance and zero annualized volatility), line 45 of the source divides the
positive annualized mean return 252 by the zero volatility and silently
yields the IEEE artifact `+inf` as the Sharpe ratio — a numeric extreme in
the returned triple, not a distinct sentinel or error. -/
theorem sharpe_degenerate_posInf :
    (portfolio_performance wOne Rconst).2.2 = SharpeValue.posInf := by
  have hq : portfolio_qf wOne Rconst = 0 := by
    norm_num [portfolio_qf, cov_matrix, column_mean, wOne, Rconst,
      Fin.sum_univ_one, Fin.sum_univ_two]
  have hm : mean_return wOne Rconst = 252 := by
    norm_num [mean_return, column_mean, wOne, Rconst, NUM_TRADING_DAYS,
      Fin.sum_univ_one, Fin.sum_univ_two]
  show ieee_div (mean_return wOne Rconst) (volatility wOne Rconst)
      = SharpeValue.posInf
  unfold volatility
  rw [hq]
  have h0 : (((0 : ℚ) : ℝ)) = (0 : ℝ) := by norm_num
  rw [h0, Real.sqrt_zero]
  unfold ieee_div
  rw [if_pos rfl, hm]
  norm_num

theorem mem_simulate_weights {n m : ℕ} (s : ℕ → ℚ) (R : Fin n → Fin m → ℚ)
    (trials t : ℕ) (ht : t < trials) :
    normalize_weights (draw_magnitudes s m t) ∈ (simulate_portfolios s R trials).1 := by
  induction trials with
  | zero => exact absurd ht (Nat.not_lt_zero t)
  | succ T ih =>
    simp only [simulate_portfolios]
    rcases Nat.lt_succ_iff_lt_or_eq.mp ht with h | h
    · exact List.mem_append_left _ (ih h)
    · subst h
      exact List.mem_append_right _ (List.mem_singleton_self _)

/-- C3 (amended): every weight vector generated by `simulate_portfolios`
whose trial drew nonnegative magnitudes with a positive sum is feasible:
it appears in the weights record, its elements sum to exactly 1 (hence
within the 1e-9 tolerance), and every element lies in `[0, 1]`.  The
positive-sum hypothesis is forced by the counterexample below: for an
all-zero draw the normalization divides by zero. -/
theorem simulate_weights_feasible {n m : ℕ} (s : ℕ → ℚ) (R : Fin n → Fin m → ℚ)
    (trials t : ℕ) (ht : t < trials)
    (hnn : ∀ k : Fin m, 0 ≤ draw_magnitudes s m t k)
    (hpos : 0 < ∑ k, draw_magnitudes s m t k) :
    normalize_weights (draw_magnitudes s m t) ∈ (simulate_portfolios s R trials).1 ∧
    (∑ k, normalize_weights (draw_magnitudes s m t) k) = 1 ∧
    ∀ k, 0 ≤ normalize_weights (draw_magnitudes s m t) k ∧
      normalize_weights (draw_magnitudes s m t) k ≤ 1 := by
  refine ⟨mem_simulate_weights s R trials t ht, ?_, ?_⟩
  · simp only [normalize_weights]
    rw [← Finset.sum_div]
    exact div_self (ne_of_gt hpos)
  · intro k
    simp only [normalize_weights]
    constructor
    · exact div_nonneg (hnn k) hpos.le
    · rw [div_le_one hpos]
      exact Finset.single_le_sum (fun i _ => hnn i) (Finset.mem_univ k)

/-- Witness for the amended C3 theorem: one trial over one asset with the
constant stream of draws 1/2. -/
theorem simulate_weights_feasible_witness :
    (0 < 1) ∧ (∀ k : Fin 1, 0 ≤ draw_magnitudes halfStream 1 0 k) ∧
    (0 < ∑ k, draw_magnitudes halfStream 1 0 k) ∧
    (normalize_weights (draw_magnitudes halfStream 1 0)
        ∈ (simulate_portfolios halfStream Rconst 1).1 ∧
     (∑ k, normalize_weights (draw_magnitudes halfStream 1 0) k) = 1 ∧
     ∀ k, 0 ≤ normalize_weights (draw_magnitudes halfStream 1 0) k ∧
       normalize_weights (draw_magnitudes halfStream 1 0) k ≤ 1) :=
  ⟨Nat.zero_lt_one, fun _ => one_half_pos.le,
   by rw [Fin.sum_univ_one]; exact one_half_pos,
   simulate_weights_feasible halfStream Rconst 1 0 Nat.zero_lt_one
     (fun _ => one_half_pos.le)
     (by rw [Fin.sum_univ_one]; exact one_half_pos)⟩

/-- C3 counterexample: the value 0 lies in the range `[0, 1)` of
`np.random.random`, so the all-zero draw is a possible (probability-zero)
trial.  For it the recorded weight vector is the all-zero draw divided by
its zero sum, and its element sum is not within 1e-9 of 1 — under the ℚ
convention 0/0 = 0 the sum is 0, and under the actual numpy float semantics
the weights are NaN; the claimed invariant fails either way. -/
theorem simulate_allzero_draw_infeasible :
    (simulate_portfolios zeroStream Rconst 1).1
        = [normalize_weights (draw_magnitudes zeroStream 1 0)] ∧
    ¬ |(∑ k, normalize_weights (draw_magnitudes zeroStream 1 0) k) - 1|
        ≤ 1 / 1000000000 := by
  constructor
  · rfl
  · norm_num [normalize_weights, draw_magnitudes, zeroStream, Fin.sum_univ_one]

/-- C7: the Monte Carlo sampling is a deterministic function of the random
source: two random streams that agree on the `trials * assetCount` consumed
positions (i.e. the same seed/state) produce identical sequences of weight
vectors over the same return table. -/
theorem simulate_weights_reproducible {n m : ℕ} (s1 s2 : ℕ → ℚ)
    (R : Fin n → Fin m → ℚ) (trials : ℕ)
    (h : ∀ j, j < trials * m → s1 j = s2 j) :
    (simulate_portfolios s1 R trials).1 = (simulate_portfolios s2 R trials).1 := by
  induction trials with
  | zero => rfl
  | succ T ih =>
    have hT : ∀ j, j < T * m → s1 j = s2 j := fun j hj =>
      h j (lt_of_lt_of_le hj (Nat.mul_le_mul_right m (Nat.le_succ T)))
    have hw : draw_magnitudes s1 m T = draw_magnitudes s2 m T := by
      funext k
      simp only [draw_magnitudes]
      refine h (T * m + (k : ℕ)) ?_
      calc T * m + (k : ℕ) < T * m + m := Nat.add_lt_add_left k.isLt (T * m)
        _ = (T + 1) * m := (Nat.succ_mul T m).symm
    simp only [simulate_portfolios]
    rw [ih hT, hw]

/-- Witness for C7: two distinct streams agreeing on the two consumed
positions of a one-trial, two-asset run. -/
theorem simulate_weights_reproducible_witness :
    (∀ j, j < 1 * 2 → halfStream j = otherStream j) ∧
    (simulate_portfolios halfStream Rex 1).1
      = (simulate_portfolios otherStream Rex 1).1 :=
  ⟨fun j hj => by simp only [halfStream, otherStream]; rw [if_pos hj],
   simulate_weights_reproducible halfStream otherStream Rex 1
     (fun j hj => by simp only [halfStream, otherStream]; rw [if_pos hj])⟩

/-- C8: with `num_portfolios = 0` the simulation loop body never runs and
`simulate_portfolios` returns an empty weights record and an empty results
list; as a total function of its inputs it raises no error. -/
theorem simulate_portfolios_zero_trials {n m : ℕ} (s : ℕ → ℚ)
    (R : Fin n → Fin m → ℚ) :
    simulate_portfolios s R 0 = ([], []) := rfl

theorem simulate_portfolios_spec {n m : ℕ} (s : ℕ → ℚ) (R : Fin n → Fin m → ℚ)
    (trials : ℕ) :
    (simulate_portfolios s R trials).1.length = trials ∧
    (simulate_portfolios s R trials).2
      = (simulate_portfolios s R trials).1.map (fun w => portfolio_performance w R) := by
  induction trials with
  | zero => exact ⟨rfl, rfl⟩
  | succ T ih =>
    obtain ⟨h1, h2⟩ := ih
    constructor
    · simp [simulate_portfolios, h1]
    · simp only [simulate_portfolios, List.map_append, List.map_cons,
        List.map_nil, h2]

/-- C9: the simulation result is a parallel pairing — the weights record
holds exactly `trials` weight vectors (each of length `assetCount` by the
type `Fin m → ℚ`), the results list holds exactly `trials` triples, and the
`i`-th triple is `portfolio_performance` of the `i`-th recorded weight
vector over the same return table. -/
theorem simulate_portfolios_pairing {n m : ℕ} (s : ℕ → ℚ)
    (R : Fin n → Fin m → ℚ) (trials : ℕ) :
    (simulate_portfolios s R trials).1.length = trials ∧
    (simulate_portfolios s R trials).2.length = trials ∧
    ∀ i : ℕ, ((simulate_portfolios s R trials).2)[i]?
      = (((simulate_portfolios s R trials).1)[i]?).map
          (fun w => portfolio_performance w R) := by
  obtain ⟨h1, h2⟩ := simulate_portfolios_spec s R trials
  refine ⟨h1, ?_, ?_⟩
  · rw [h2, List.length_map, h1]
  · intro i
    rw [h2, List.getElem?_map]
